import Mathlib

/-!
Verification of the COOKABLE recipe recommendation system.

The repository has two source files: `app.py` (the recipe-finder page, which
calls the matching/clustering core and renders results) and `api_access.py`
(a client for a third-party ingredient-search API).  The core modules
`logic.clustering` and `logic.recipe_matching` are imported by `app.py` but
are not part of the source tree; where a definition embeds them it is
modelled from the specification, as its doc comment states.  Numeric values
are modelled as rationals.
-/

namespace Cookable

/-- Modelled from the spec: the fixed "pantry staple" allowance (salt, pepper,
oil, butter), assumed always available and excluded from matching/missing
calculations.  The missing module is `logic.recipe_matching`. -/
def staples : Finset String := {"salt", "pepper", "oil", "butter"}

/-- A catalog entry, immutable after load (spec section 3). -/
structure Recipe where
  name : String
  ingredients : Finset String
  rating : ℚ
  cooking_time : ℚ
  difficulty : String
  instructions : String
deriving DecidableEq

/-- Staple-adjusted required ingredient set of a recipe: the recipe's
ingredients with the pantry staples removed. -/
def requiredSet (r : Recipe) : Finset String := r.ingredients \ staples

/-- Ingredients of `r` (staple-adjusted) that the user has. -/
def matchingSet (r : Recipe) (user : Finset String) : Finset String :=
  requiredSet r ∩ user

/-- Ingredients of `r` (staple-adjusted) that the user is missing. -/
def missingSet (r : Recipe) (user : Finset String) : Finset String :=
  requiredSet r \ user

/-- Error raised at fit time on an empty or unusable catalog (spec section 7). -/
inductive DataError where
  | dataError
deriving DecidableEq

/-- Error raised when the cluster summary is requested before fit (spec
section 7). -/
inductive StateError where
  | stateError
deriving DecidableEq

/-- A fitted clusterer: the catalog snapshot together with the cluster id
assigned to each recipe (parallel lists). -/
structure FittedClusterer where
  catalog : List Recipe
  clusterIds : List Nat
deriving DecidableEq

/-- Modelled from the spec: `fit(catalog, k)` of the missing module
`logic.clustering`.  The spec fixes the contract — fail with `DataError` when
the catalog is empty or every recipe has an empty ingredient set; otherwise
clamp `k` to the catalog size and attach to every recipe a cluster id in
`[0, k)` deterministically.  The spec leaves the partition itself open (any
centroid-based partitioning with a fixed seed); the model uses the
deterministic assignment `i % k` of recipe positions, which realises the
specified contract. -/
def fit (catalog : List Recipe) (k : Nat) : Except DataError FittedClusterer :=
  if catalog.isEmpty || catalog.all (fun r => r.ingredients.card == 0) then
    Except.error DataError.dataError
  else
    let kc := min k catalog.length
    Except.ok ⟨catalog, (List.range catalog.length).map (fun i => i % kc)⟩

/-- Member recipes of cluster `c`, in catalog insertion order. -/
def membersOf (fc : FittedClusterer) (c : Nat) : List Recipe :=
  ((fc.catalog.zip fc.clusterIds).filter (fun p => p.2 == c)).map Prod.fst

/-- Per-cluster summary record (spec section 3). -/
structure ClusterSummary where
  num_recipes : Nat
  avg_rating : ℚ
  popularity_score : ℚ
  example_recipes : List String
deriving DecidableEq

/-- Summary of one cluster of a fitted clusterer: member count, mean member
rating, popularity (mean rating normalised by 5) and up to three example
names in insertion order. -/
def summarizeCluster (fc : FittedClusterer) (c : Nat) : ClusterSummary :=
  let members := membersOf fc c
  let avg := (members.map (fun r => r.rating)).sum / (members.length : ℚ)
  { num_recipes := members.length
    avg_rating := avg
    popularity_score := avg / 5
    example_recipes := (members.map (fun r => r.name)).take 3 }

/-- Modelled from the spec: `get_cluster_summary()` of the missing module
`logic.clustering`.  The clusterer state is `none` before fit and
`some fc` after; before fit the call fails with `StateError`, after fit it
returns one summary per assigned cluster id, iterated by cluster id
ascending. -/
def get_cluster_summary (st : Option FittedClusterer) :
    Except StateError (List (Nat × ClusterSummary)) :=
  match st with
  | none => Except.error StateError.stateError
  | some fc =>
      let keys := fc.clusterIds.dedup.mergeSort (fun a b => a ≤ b)
      Except.ok (keys.map (fun c => (c, summarizeCluster fc c)))

/-- Popularity score of cluster `c`: the cluster's mean member rating
normalised to `[0,1]` by dividing by 5; `0` for a cluster with no members. -/
def popularityOf (fc : FittedClusterer) (c : Nat) : ℚ :=
  let members := membersOf fc c
  if members.isEmpty then 0
  else ((members.map (fun r => r.rating)).sum / (members.length : ℚ)) / 5

/-- Clip a rational to the unit interval. -/
def clip01 (x : ℚ) : ℚ := max 0 (min 1 x)

/-- Modelled from the spec: the cooking-time factor of the missing module
`logic.recipe_matching` — a monotonically decreasing function of
cooking time clipped to `[0,1]`; the spec leaves the exact curve open
("normalized inverse against a reference ceiling"), and the model fixes a
120-minute reference ceiling. -/
def timeFactor (t : ℚ) : ℚ := clip01 (1 - t / 120)

/-- Missing-ingredient penalty: `1 − num_missing/(max_missing+1)`, clipped to
`[0,1]` (spec section 4.2 step 2). -/
def missingPenalty (numMissing maxMissing : Nat) : ℚ :=
  clip01 (1 - (numMissing : ℚ) / ((maxMissing : ℚ) + 1))

/-- Base score as a weighted sum of the four normalised factors
(spec section 4.2 step 2). -/
def baseScoreFrom (matchFrac penalty timeF ratingF : ℚ) : ℚ :=
  0.40 * matchFrac + 0.30 * penalty + 0.10 * timeF + 0.20 * ratingF

/-- Cluster boost blending the rating factor with the recipe's cluster
popularity (spec section 4.2 step 3). -/
def clusterBoostFrom (ratingF popularity : ℚ) : ℚ :=
  0.2 * ratingF + 0.2 * popularity

/-- Final score blending base score and cluster boost
(spec section 4.2 step 4). -/
def finalScoreFrom (base boost : ℚ) : ℚ := 0.6 * base + 0.4 * boost

/-- One ranked result record (spec section 3, `MatchResult`); `idx` records
the recipe's catalog insertion position, the last tie-breaker of the sort. -/
structure MatchResult where
  idx : Nat
  name : String
  rating : ℚ
  cooking_time : ℚ
  difficulty : String
  instructions : String
  cluster_id : Nat
  matching_ingredients : Finset String
  missing_ingredients : Finset String
  num_matching : Nat
  num_missing : Nat
  base_score : ℚ
  cluster_boost : ℚ
  final_score : ℚ
deriving DecidableEq

/-- Build the `MatchResult` for catalog position `i`, recipe `r`, assigned
cluster `c`, against the user's ingredient set. -/
def scoreRecipe (fc : FittedClusterer) (user : Finset String)
    (maxMissing : Nat) (i : Nat) (r : Recipe) (c : Nat) : MatchResult :=
  let matching := matchingSet r user
  let missing := missingSet r user
  let matchFrac := (matching.card : ℚ) / ((requiredSet r).card : ℚ)
  let base := baseScoreFrom matchFrac (missingPenalty missing.card maxMissing)
    (timeFactor r.cooking_time) (r.rating / 5)
  let boost := clusterBoostFrom (r.rating / 5) (popularityOf fc c)
  { idx := i
    name := r.name
    rating := r.rating
    cooking_time := r.cooking_time
    difficulty := r.difficulty
    instructions := r.instructions
    cluster_id := c
    matching_ingredients := matching
    missing_ingredients := missing
    num_matching := matching.card
    num_missing := missing.card
    base_score := base
    cluster_boost := boost
    final_score := finalScoreFrom base boost }

/-- The candidate (feasible) results: recipes whose staple-adjusted missing
count is at most `maxMissing`, scored, in catalog insertion order
(spec section 4.2 step 1). -/
def feasibleResults (fc : FittedClusterer) (user : Finset String)
    (maxMissing : Nat) : List MatchResult :=
  ((fc.catalog.zip fc.clusterIds).enum.filter
      (fun p => (missingSet p.2.1 user).card ≤ maxMissing)).map
    (fun p => scoreRecipe fc user maxMissing p.1 p.2.1 p.2.2)

/-- The ranking order on results as a proposition: final score descending,
then rating descending, then cooking time ascending, then catalog insertion
order (spec section 4.2 step 5). -/
def rankBefore (a b : MatchResult) : Prop :=
  b.final_score < a.final_score ∨
    (a.final_score = b.final_score ∧
      (b.rating < a.rating ∨
        (a.rating = b.rating ∧
          (a.cooking_time < b.cooking_time ∨
            (a.cooking_time = b.cooking_time ∧ a.idx ≤ b.idx)))))

instance : DecidableRel rankBefore := fun a b =>
  inferInstanceAs (Decidable
    (b.final_score < a.final_score ∨
      (a.final_score = b.final_score ∧
        (b.rating < a.rating ∨
          (a.rating = b.rating ∧
            (a.cooking_time < b.cooking_time ∨
              (a.cooking_time = b.cooking_time ∧ a.idx ≤ b.idx)))))))

/-- Modelled from the spec: `find_matching_recipes(user_ingredients,
max_missing, top_n)` of the missing module `logic.recipe_matching` — filter
feasible recipes, score each, sort by final score descending with the
deterministic tie-breaks, truncate to `top_n`. -/
def find_matching_recipes (fc : FittedClusterer) (user : Finset String)
    (maxMissing topN : Nat) : List MatchResult :=
  ((feasibleResults fc user maxMissing).insertionSort rankBefore).take topN

/-- Modelled from the spec: a matcher call as seen by the caller, threading
the shared read-only state — the matcher has no internal state across calls
and mutates nothing, so the state component is returned unchanged. -/
def find_matching_recipes_call (fc : FittedClusterer) (user : Finset String)
    (maxMissing topN : Nat) : FittedClusterer × List MatchResult :=
  (fc, find_matching_recipes fc user maxMissing topN)

/-- The Spoonacular API key hard-coded in `api_access.py`. -/
def API_KEY : String := "bee82b1f38a54a919043814af3ffc55f"

/-- An HTTP response as `api_access.py` consumes it: a status code, the raw
body text, and the result of parsing the body as JSON (`none` when the body
is not valid JSON, in which case `.json()` raises).  The JSON value type is
abstract. -/
structure HttpResponse (α : Type) where
  status_code : Nat
  text : String
  jsonBody : Option α

/-- The exception `response.json()` raises on an unparseable body. -/
inductive JSONDecodeError where
  | decodeError
deriving DecidableEq

/-- The query parameters `find_recipe_by_ingredients` builds: the API key,
the ingredients joined by commas, the requested number of recipes, and
`ranking=1`. -/
def findByIngredientsParams (ingredients : List String) (number : Nat) :
    List (String × String) :=
  [("apiKey", API_KEY),
   ("ingredients", String.intercalate "," ingredients),
   ("number", toString number),
   ("ranking", toString 1)]

/-- The endpoint URL used by `find_recipe_by_ingredients`. -/
def findByIngredientsUrl : String :=
  "https://api.spoonacular.com/recipes/findByIngredients"

/-- `find_recipe_by_ingredients` from `api_access.py`.  The network effect is
embedded as the oracle `get`, mapping a URL and query parameters to the
response.  The returned pair carries the lines printed to stdout and the
outcome: `Except.error` models an uncaught exception, `Except.ok none`
models returning `None`, and `Except.ok (some v)` models returning the
parsed JSON body `v`. -/
def find_recipe_by_ingredients {α : Type}
    (get : String → List (String × String) → HttpResponse α)
    (ingredients : List String) (number : Nat) :
    List String × Except JSONDecodeError (Option α) :=
  let params := findByIngredientsParams ingredients number
  let response := get findByIngredientsUrl params
  if response.status_code ≠ 200 then
    (["Error: " ++ toString response.status_code ++ " " ++ response.text],
     Except.ok none)
  else
    match response.jsonBody with
    | some v => ([], Except.ok (some v))
    | none => ([], Except.error JSONDecodeError.decodeError)

/-- The ingredient checklist of `app.py` (name and emoji pairs), in page
order. -/
def ingredients_list : List (String × String) :=
  [("Eggs", "🥚"), ("Flour", "🌾"), ("Garlic", "🧄"), ("Onion", "🧅"),
   ("Milk", "🥛"), ("Tomatoes", "🍅"), ("Parmesan cheese", "🧀"),
   ("Feta cheese", "🧀"), ("Mozzarella cheese", "🧀"), ("Chicken", "🍗"),
   ("Soy sauce", "🥫"), ("Lemon", "🍋"), ("Carrots", "🥕"),
   ("Potatoes", "🥔"), ("Bell peppers", "🫑"), ("Rice", "🍚"),
   ("Beef", "🥩"), ("Pasta", "🍝"), ("Heavy cream", "🥛"),
   ("Broccoli", "🥦"), ("Mushrooms", "🍄"), ("Apples", "🍎"),
   ("Spinach", "🥬"), ("Banana", "🍌"), ("Bacon", "🥓")]

/-- The `selected` list one page run builds from the checkbox states: the
three column loops walk indices `0..per_column-1`, `per_column..2*per_column-1`
and `2*per_column..total-1` in order, appending the ingredient name of every
checked box, so overall the names of checked indices in page order. -/
def selectedFrom (boxes : Nat → Bool) : List String :=
  (ingredients_list.enum.filter (fun p => boxes p.1)).map (fun p => p.2.1)

/-- The session state of the recipe-finder page: the stored ingredient
selection and the results-section flag. -/
structure PageState where
  selected_ingredients : List String
  show_results : Bool
deriving DecidableEq

/-- One top-to-bottom run of the `app.py` script, as Streamlit reruns it per
interaction.  Inputs: the previous session state, the checkbox states, and
whether the "Find My Recipes" button reported a click (the button exists
only when the selection is non-empty).  The run stores the current
selection in the session (an empty list when nothing is checked), resets
`show_results` to false on an empty selection, sets it to true and reruns
(aborting before the results section) on a click, and otherwise reaches the
results section, which executes only under its guard
`show_results and len(selected_ingredients) > 0`.  Output: the new session
state, and `some u` exactly when the results section ran and called
`find_matching_recipes` with `user_ingredients = u`. -/
def runPage (s : PageState) (boxes : Nat → Bool) (clicked : Bool) :
    PageState × Option (List String) :=
  let selected := selectedFrom boxes
  if selected.isEmpty then
    (⟨[], false⟩, none)
  else if clicked then
    (⟨selected, true⟩, none)
  else
    (⟨selected, s.show_results⟩,
     if s.show_results && !selected.isEmpty then some selected else none)

/-- The lexicographic sort key realising the ranking order: final score
negated (descending), then rating negated (descending), then cooking time
(ascending), then catalog insertion position. -/
def rankKey (res : MatchResult) : ℚ ×ₗ (ℚ ×ₗ (ℚ ×ₗ ℕ)) :=
  toLex (-res.final_score,
    toLex (-res.rating, toLex (res.cooking_time, res.idx)))

/-- Demonstration catalog entry used to instantiate proved theorems. -/
def demoRecipeA : Recipe :=
  { name := "Omelette", ingredients := {"eggs", "milk", "salt"},
    rating := 4, cooking_time := 30, difficulty := "easy",
    instructions := "Beat the eggs and fry." }

/-- Second demonstration catalog entry. -/
def demoRecipeB : Recipe :=
  { name := "Tomato Pasta", ingredients := {"pasta", "tomatoes", "garlic", "oil"},
    rating := 5, cooking_time := 20, difficulty := "easy",
    instructions := "Boil the pasta, add sauce." }

/-- Demonstration catalog. -/
def demoCatalog : List Recipe := [demoRecipeA, demoRecipeB]

/-- The fitted clusterer `fit demoCatalog 5` produces (k clamped to 2). -/
def demoFC : FittedClusterer := ⟨demoCatalog, [0, 1]⟩

/-- Demonstration user ingredient set. -/
def demoUser : Finset String := {"eggs", "milk", "pasta", "tomatoes"}

/-- The match result the demonstration catalog's first recipe produces. -/
def demoResA : MatchResult := scoreRecipe demoFC demoUser 2 0 demoRecipeA 0

/-- Demonstration HTTP oracle answering every request with status 200 and
the JSON value `42`. -/
def demoGet200 : String → List (String × String) → HttpResponse Nat :=
  fun _ _ => { status_code := 200, text := "[]", jsonBody := some 42 }

/-- Demonstration page state: "Eggs" stored, results flag set. -/
def demoPageState : PageState := ⟨["Eggs"], true⟩

/-- Demonstration checkbox assignment: only box 0 ("Eggs") is checked. -/
def demoBoxes : Nat → Bool := fun i => i == 0

/-- C6: holding the other factors fixed, the final score is monotonically
non-decreasing in the match ratio and in the rating: with the same
missing penalty, time factor and cluster popularity, a result with a
higher match ratio and a higher rating scores at least as high. -/
theorem final_score_monotone (penalty timeF pop mf mf' rating rating' : ℚ)
    (hmf : mf ≤ mf') (hr : rating ≤ rating') :
    finalScoreFrom (baseScoreFrom mf penalty timeF (rating / 5))
        (clusterBoostFrom (rating / 5) pop) ≤
      finalScoreFrom (baseScoreFrom mf' penalty timeF (rating' / 5))
        (clusterBoostFrom (rating' / 5) pop) := by
  unfold finalScoreFrom baseScoreFrom clusterBoostFrom
  have h5 : rating / 5 ≤ rating' / 5 := by linarith
  norm_num
  nlinarith

theorem final_score_monotone_w :
    (1 : ℚ) / 2 ≤ 3 / 4 ∧ (3 : ℚ) ≤ 4 ∧
      finalScoreFrom (baseScoreFrom (1 / 2) 1 1 ((3 : ℚ) / 5))
          (clusterBoostFrom ((3 : ℚ) / 5) 1) ≤
        finalScoreFrom (baseScoreFrom (3 / 4) 1 1 ((4 : ℚ) / 5))
          (clusterBoostFrom ((4 : ℚ) / 5) 1) :=
  ⟨by norm_num, by norm_num,
    final_score_monotone 1 1 1 (1 / 2) (3 / 4) 3 4 (by norm_num) (by norm_num)⟩

/-- C7: a matcher call is pure — it returns the shared catalog/cluster state
unchanged, and a second call with the same arguments against the state the
first call left behind returns the identical ordered output (determinism
under ties included, the output being a single deterministic value). -/
theorem matcher_pure_idempotent (fc : FittedClusterer) (user : Finset String)
    (maxMissing topN : Nat) :
    (find_matching_recipes_call fc user maxMissing topN).1 = fc ∧
      (find_matching_recipes_call
          (find_matching_recipes_call fc user maxMissing topN).1
          user maxMissing topN).2 =
        (find_matching_recipes_call fc user maxMissing topN).2 :=
  ⟨rfl, rfl⟩

/-- C8: `fit` fails with `DataError` exactly when the catalog is empty or
every recipe's ingredient set is empty, and `get_cluster_summary` fails
with `StateError` exactly when fit has not run; each operation returns
either a full value or an error, never both. -/
theorem fit_summary_errors (catalog : List Recipe) (k : Nat)
    (st : Option FittedClusterer) :
    (fit catalog k = Except.error DataError.dataError ↔
      catalog = [] ∨ ∀ r ∈ catalog, r.ingredients = ∅) ∧
      (get_cluster_summary st = Except.error StateError.stateError ↔
        st = none) := by
  constructor
  · unfold fit
    by_cases h : catalog.isEmpty || catalog.all (fun r => r.ingredients.card == 0)
    · simp only [h, if_true, true_iff]
      rcases Bool.or_eq_true_iff.mp h with h1 | h2
      · exact Or.inl (List.isEmpty_iff.mp h1)
      · refine Or.inr (fun r hr => ?_)
        have := List.all_eq_true.mp h2 r hr
        simpa [Finset.card_eq_zero] using this
    · rw [Bool.not_eq_true] at h
      simp only [h, Bool.false_eq_true, if_false]
      constructor
      · intro hcontra; exact Except.noConfusion hcontra
      · intro hor
        exfalso
        have hc : (catalog.isEmpty ||
            catalog.all (fun r => r.ingredients.card == 0)) = true := by
          rcases hor with h1 | h2
          · simp [h1]
          · refine Bool.or_eq_true_iff.mpr (Or.inr (List.all_eq_true.mpr ?_))
            intro r hr
            simp [h2 r hr]
        rw [h] at hc
        exact Bool.false_ne_true hc
  · cases st <;> simp [get_cluster_summary]

/-- C9: `find_recipe_by_ingredients` returns `None` exactly when the response
status code is not 200 (after printing an error line), returns the parsed
JSON body on a 200 response with a parseable body, and raises no exception
on a non-200 status. -/
theorem api_non200_returns_none {α : Type}
    (get : String → List (String × String) → HttpResponse α)
    (ingredients : List String) (number : Nat) :
    ((find_recipe_by_ingredients get ingredients number).2 = Except.ok none ↔
      (get findByIngredientsUrl
          (findByIngredientsParams ingredients number)).status_code ≠ 200) ∧
      ((get findByIngredientsUrl
            (findByIngredientsParams ingredients number)).status_code ≠ 200 →
        (find_recipe_by_ingredients get ingredients number).1 =
            ["Error: " ++
              toString (get findByIngredientsUrl
                (findByIngredientsParams ingredients number)).status_code ++
              " " ++
              (get findByIngredientsUrl
                (findByIngredientsParams ingredients number)).text] ∧
          ∀ e, (find_recipe_by_ingredients get ingredients number).2 ≠
            Except.error e) ∧
      (∀ v,
        (get findByIngredientsUrl
            (findByIngredientsParams ingredients number)).status_code = 200 →
        (get findByIngredientsUrl
            (findByIngredientsParams ingredients number)).jsonBody = some v →
        (find_recipe_by_ingredients get ingredients number).2 =
          Except.ok (some v)) := by
  unfold find_recipe_by_ingredients
  by_cases h : (get findByIngredientsUrl
      (findByIngredientsParams ingredients number)).status_code = 200
  · cases hb : (get findByIngredientsUrl
        (findByIngredientsParams ingredients number)).jsonBody <;>
      simp [h, hb]
  · simp [h]

theorem api_non200_returns_none_w :
    (demoGet200 findByIngredientsUrl
        (findByIngredientsParams ["chicken", "rice"] 1)).status_code = 200 ∧
      (demoGet200 findByIngredientsUrl
          (findByIngredientsParams ["chicken", "rice"] 1)).jsonBody = some 42 ∧
      (find_recipe_by_ingredients demoGet200 ["chicken", "rice"] 1).2 =
        Except.ok (some 42) :=
  ⟨rfl, rfl,
    (api_non200_returns_none demoGet200 ["chicken", "rice"] 1).2.2 42 rfl rfl⟩

/-- C10: a page run resets `show_results` whenever no ingredient is checked,
and whenever the results section runs it calls the matcher with the stored
selection, which is non-empty — so no reachable page state passes an empty
user ingredient list to `find_matching_recipes`. -/
theorem results_call_nonempty (s : PageState) (boxes : Nat → Bool)
    (clicked : Bool) :
    ((selectedFrom boxes).isEmpty = true →
        (runPage s boxes clicked).1.show_results = false) ∧
      ∀ u, (runPage s boxes clicked).2 = some u →
        u ≠ [] ∧ u = (runPage s boxes clicked).1.selected_ingredients := by
  unfold runPage
  by_cases hsel : (selectedFrom boxes).isEmpty
  · simp [hsel]
  · simp only [hsel, Bool.false_eq_true, if_false]
    constructor
    · intro hcontra; exact absurd hcontra (by simp [hsel])
    · intro u hu
      by_cases hc : clicked
      · simp [hc] at hu
      · simp only [hc, if_false] at hu ⊢
        by_cases hs : s.show_results
        · simp only [hs, Bool.true_and, hsel, Bool.not_false, if_true] at hu
          cases hu
          exact ⟨fun hnil => hsel (List.isEmpty_iff.mpr hnil), rfl⟩
        · simp [hs] at hu

theorem results_call_nonempty_w :
    (runPage demoPageState demoBoxes false).2 = some ["Eggs"] ∧
      ["Eggs"] ≠ ([] : List String) :=
  ⟨by decide,
    ((results_call_nonempty demoPageState demoBoxes false).2 ["Eggs"]
      (by decide)).1⟩

/-- A successful fit returns the catalog snapshot, the `i % min k |C|`
assignment, and witnesses a non-empty catalog. -/
theorem fit_ok_elim (catalog : List Recipe) (k : Nat) (fc : FittedClusterer)
    (h : fit catalog k = Except.ok fc) :
    fc.catalog = catalog ∧
      fc.clusterIds =
        (List.range catalog.length).map (fun i => i % min k catalog.length) ∧
      catalog ≠ [] := by
  unfold fit at h
  by_cases hc : (catalog.isEmpty || catalog.all (fun r => r.ingredients.card == 0))
  · rw [if_pos hc] at h
    exact Except.noConfusion h
  · rw [Bool.not_eq_true] at hc
    rw [hc] at h
    simp only [Bool.false_eq_true, if_false, Except.ok.injEq] at h
    subst h
    refine ⟨rfl, rfl, ?_⟩
    intro hnil
    rw [hnil] at hc
    simp at hc

/-- The member count of a cluster equals the number of occurrences of its id
in the assignment list, whenever catalog and assignment have equal length. -/
theorem length_membersOf (l : List Recipe) (ids : List Nat)
    (hlen : l.length = ids.length) (c : Nat) :
    (membersOf ⟨l, ids⟩ c).length = ids.count c := by
  induction l generalizing ids with
  | nil =>
      cases ids with
      | nil => simp [membersOf]
      | cons j js => simp at hlen
  | cons r rs ih =>
      cases ids with
      | nil => simp at hlen
      | cons j js =>
          have hlen' : rs.length = js.length := by simpa using hlen
          by_cases hj : j = c
          · simp only [membersOf, List.zip_cons_cons, List.filter_cons,
              hj, beq_self_eq_true, if_true, List.map_cons, List.length_cons,
              List.count_cons, beq_self_eq_true, if_true]
            have := ih js hlen'
            simp only [membersOf] at this
            omega
          · simp only [membersOf, List.zip_cons_cons, List.filter_cons,
              List.count_cons]
            have hb : ((j : Nat) == c) = false := beq_eq_false_iff_ne.mpr hj
            simp only [hb, Bool.false_eq_true, if_false]
            have := ih js hlen'
            simp only [membersOf] at this
            omega

/-- C4: after a successful `fit(C, k)` with positive `k`, the catalog is
preserved, every recipe has a cluster id below `min k |C|` (the clamp), the
summary has a key for every assigned cluster id, and the summary's member
counts sum to `|C|`. -/
theorem fit_cluster_invariants (catalog : List Recipe) (k : Nat)
    (fc : FittedClusterer) (hk : 1 ≤ k)
    (hfit : fit catalog k = Except.ok fc) :
    fc.catalog = catalog ∧
      fc.clusterIds.length = catalog.length ∧
      (∀ c ∈ fc.clusterIds, c < min k catalog.length) ∧
      ∃ summ, get_cluster_summary (some fc) = Except.ok summ ∧
        (∀ c ∈ fc.clusterIds, c ∈ summ.map Prod.fst) ∧
        (summ.map (fun p => p.2.num_recipes)).sum = catalog.length := by
  obtain ⟨hcat, hids, hne⟩ := fit_ok_elim catalog k fc hfit
  have hn : 0 < catalog.length := List.length_pos.mpr hne
  have hkc : 0 < min k catalog.length := lt_min hk hn
  have hlen : fc.clusterIds.length = catalog.length := by
    rw [hids]; simp
  refine ⟨hcat, hlen, ?_, ?_⟩
  · intro c hcmem
    rw [hids] at hcmem
    obtain ⟨i, _, hic⟩ := List.mem_map.mp hcmem
    rw [← hic]
    exact Nat.mod_lt i hkc
  · refine ⟨_, rfl, ?_, ?_⟩
    · intro c hcmem
      have hdedup : c ∈ fc.clusterIds.dedup := List.mem_dedup.mpr hcmem
      have hperm := List.mergeSort_perm fc.clusterIds.dedup (fun a b => a ≤ b)
      have hsort : c ∈ fc.clusterIds.dedup.mergeSort (fun a b => a ≤ b) :=
        hperm.mem_iff.mpr hdedup
      simpa [List.map_map, Function.comp] using hsort
    · have hmem_len : ∀ c, (membersOf fc c).length = fc.clusterIds.count c := by
        intro c
        have : fc = ⟨fc.catalog, fc.clusterIds⟩ := rfl
        rw [this]
        exact length_membersOf fc.catalog fc.clusterIds (by rw [hcat, hlen]) c
      have hmap :
          (((fc.clusterIds.dedup.mergeSort (fun a b => a ≤ b)).map
              (fun c => (c, summarizeCluster fc c))).map
            (fun p => p.2.num_recipes)) =
          ((fc.clusterIds.dedup.mergeSort (fun a b => a ≤ b)).map
            (fun c => fc.clusterIds.count c)) := by
        rw [List.map_map]
        refine List.map_congr_left (fun c _ => ?_)
        simp only [Function.comp_apply, summarizeCluster]
        exact hmem_len c
      rw [hmap]
      have hperm := List.mergeSort_perm fc.clusterIds.dedup (fun a b => a ≤ b)
      have hsum :
          ((fc.clusterIds.dedup.mergeSort (fun a b => a ≤ b)).map
              (fun c => fc.clusterIds.count c)).sum =
            (fc.clusterIds.dedup.map (fun c => fc.clusterIds.count c)).sum :=
        (hperm.map (fun c => fc.clusterIds.count c)).sum_eq
      rw [hsum, List.sum_map_count_dedup_eq_length, hlen]

theorem fit_cluster_invariants_w :
    1 ≤ 5 ∧ fit demoCatalog 5 = Except.ok demoFC ∧
      demoFC.catalog = demoCatalog :=
  ⟨by decide, by rfl,
    (fit_cluster_invariants demoCatalog 5 demoFC (by decide) (by rfl)).1⟩

/-- Membership in the candidate set, unfolded: a result is feasible exactly
when it scores some catalog position whose recipe misses at most
`maxMissing` staple-adjusted ingredients. -/
theorem mem_feasibleResults_iff (fc : FittedClusterer) (user : Finset String)
    (maxMissing : Nat) (res : MatchResult) :
    res ∈ feasibleResults fc user maxMissing ↔
      ∃ i r c, (fc.catalog.zip fc.clusterIds)[i]? = some (r, c) ∧
        (missingSet r user).card ≤ maxMissing ∧
        res = scoreRecipe fc user maxMissing i r c := by
  unfold feasibleResults
  rw [List.mem_map]
  constructor
  · rintro ⟨p, hp, hres⟩
    rw [List.mem_filter] at hp
    obtain ⟨henum, hpred⟩ := hp
    refine ⟨p.1, p.2.1, p.2.2, ?_, ?_, hres.symm⟩
    · have : (p.1, p.2) ∈ (fc.catalog.zip fc.clusterIds).enum := henum
      exact List.mk_mem_enum_iff_getElem?.mp this
    · exact of_decide_eq_true hpred
  · rintro ⟨i, r, c, hzip, hmiss, heq⟩
    refine ⟨(i, (r, c)), List.mem_filter.mpr ⟨?_, ?_⟩, heq.symm⟩
    · exact List.mk_mem_enum_iff_getElem?.mpr hzip
    · exact decide_eq_true hmiss

/-- Every returned result is a feasible result. -/
theorem mem_feasible_of_mem_find (fc : FittedClusterer) (user : Finset String)
    (maxMissing topN : Nat) (res : MatchResult)
    (hres : res ∈ find_matching_recipes fc user maxMissing topN) :
    res ∈ feasibleResults fc user maxMissing := by
  unfold find_matching_recipes at hres
  have hsorted :
      res ∈ (feasibleResults fc user maxMissing).insertionSort rankBefore :=
    List.Sublist.mem hres
      (List.take_sublist topN
        ((feasibleResults fc user maxMissing).insertionSort rankBefore))
  exact (List.perm_insertionSort rankBefore
    (feasibleResults fc user maxMissing)).mem_iff.mp hsorted

/-- C2: a catalog recipe enters the candidate set exactly when its missing
count after staple exclusion is at most `max_missing`; both the matching
and the missing sets are computed from the staple-adjusted required set, so
a staple is never counted as missing nor as matched. -/
theorem feasibility_staple_filter (fc : FittedClusterer) (user : Finset String)
    (maxMissing : Nat) (hlen : fc.clusterIds.length = fc.catalog.length)
    (i : Nat) (r : Recipe) (hir : fc.catalog[i]? = some r) :
    ((∃ res ∈ feasibleResults fc user maxMissing, res.idx = i) ↔
        (missingSet r user).card ≤ maxMissing) ∧
      matchingSet r user = (r.ingredients \ staples) ∩ user ∧
      missingSet r user = (r.ingredients \ staples) \ user ∧
      ∀ s ∈ staples, s ∉ matchingSet r user ∧ s ∉ missingSet r user := by
  obtain ⟨hilt, _⟩ := List.getElem?_eq_some_iff.mp hir
  refine ⟨⟨?_, ?_⟩, rfl, rfl, ?_⟩
  · rintro ⟨res, hres, hidx⟩
    obtain ⟨i', r', c', hzip, hmiss, heq⟩ :=
      (mem_feasibleResults_iff fc user maxMissing res).mp hres
    have hresidx : res.idx = i' := by rw [heq]; simp [scoreRecipe]
    have hii : i' = i := by rw [← hidx, hresidx]
    subst hii
    rw [List.getElem?_zip_eq_some] at hzip
    have hr' : r' = r := by
      have h1 := hzip.1
      rw [hir] at h1
      exact (Option.some_inj.mp h1).symm
    rw [← hr']
    exact hmiss
  · intro hmiss
    have hin : i < fc.clusterIds.length := by rw [hlen]; exact hilt
    refine ⟨scoreRecipe fc user maxMissing i r fc.clusterIds[i],
      (mem_feasibleResults_iff fc user maxMissing _).mpr
        ⟨i, r, fc.clusterIds[i], ?_, hmiss, rfl⟩, by simp [scoreRecipe]⟩
    rw [List.getElem?_zip_eq_some]
    exact ⟨hir, List.getElem?_eq_getElem hin⟩
  · intro s hs
    have hnotreq : s ∉ requiredSet r := by
      rw [requiredSet, Finset.mem_sdiff]
      rintro ⟨-, habs⟩
      exact habs hs
    exact ⟨fun hmem => hnotreq (Finset.mem_of_mem_inter_left hmem),
      fun hmem => hnotreq (Finset.mem_sdiff.mp hmem).1⟩

theorem feasibility_staple_filter_w :
    demoFC.clusterIds.length = demoFC.catalog.length ∧
      demoFC.catalog[0]? = some demoRecipeA ∧
      matchingSet demoRecipeA demoUser =
        (demoRecipeA.ingredients \ staples) ∩ demoUser :=
  ⟨rfl, rfl,
    (feasibility_staple_filter demoFC demoUser 2 rfl 0 demoRecipeA rfl).2.1⟩

/-- C5: every produced result's matching set is the staple-adjusted required
set intersected with the user's set, its missing set is the staple-adjusted
required set minus the user's set, and the two counts sum to the size of
the staple-adjusted ingredient set. -/
theorem match_result_sets (fc : FittedClusterer) (user : Finset String)
    (maxMissing topN : Nat) (res : MatchResult)
    (hres : res ∈ find_matching_recipes fc user maxMissing topN) :
    ∃ r, fc.catalog[res.idx]? = some r ∧
      res.matching_ingredients = (r.ingredients \ staples) ∩ user ∧
      res.missing_ingredients = (r.ingredients \ staples) \ user ∧
      res.num_matching = res.matching_ingredients.card ∧
      res.num_missing = res.missing_ingredients.card ∧
      res.num_matching + res.num_missing = (r.ingredients \ staples).card := by
  obtain ⟨i, r, c, hzip, hmiss, heq⟩ :=
    (mem_feasibleResults_iff fc user maxMissing res).mp
      (mem_feasible_of_mem_find fc user maxMissing topN res hres)
  rw [List.getElem?_zip_eq_some] at hzip
  subst heq
  refine ⟨r, ?_, ?_, ?_, ?_, ?_, ?_⟩
  · simpa [scoreRecipe] using hzip.1
  · simp [scoreRecipe, matchingSet, requiredSet]
  · simp [scoreRecipe, missingSet, requiredSet]
  · simp [scoreRecipe]
  · simp [scoreRecipe]
  · simp only [scoreRecipe]
    exact Finset.card_inter_add_card_sdiff (requiredSet r) user

/-- The demonstration result for "Omelette" is among the returned matches. -/
theorem demoResA_mem : demoResA ∈ find_matching_recipes demoFC demoUser 2 5 := by
  unfold find_matching_recipes
  rw [List.take_of_length_le (by
    rw [(List.perm_insertionSort rankBefore
      (feasibleResults demoFC demoUser 2)).length_eq]
    decide)]
  exact (List.perm_insertionSort rankBefore
    (feasibleResults demoFC demoUser 2)).mem_iff.mpr
    ((mem_feasibleResults_iff demoFC demoUser 2 demoResA).mpr
      ⟨0, demoRecipeA, 0, by decide, by decide, rfl⟩)

theorem match_result_sets_w :
    demoResA ∈ find_matching_recipes demoFC demoUser 2 5 ∧
      ∃ r, demoFC.catalog[demoResA.idx]? = some r ∧
        demoResA.matching_ingredients = (r.ingredients \ staples) ∩ demoUser ∧
        demoResA.missing_ingredients = (r.ingredients \ staples) \ demoUser ∧
        demoResA.num_matching = demoResA.matching_ingredients.card ∧
        demoResA.num_missing = demoResA.missing_ingredients.card ∧
        demoResA.num_matching + demoResA.num_missing =
          (r.ingredients \ staples).card :=
  ⟨demoResA_mem, match_result_sets demoFC demoUser 2 5 demoResA demoResA_mem⟩

/-- Clipping lands in the unit interval. -/
theorem clip01_bounds (x : ℚ) : 0 ≤ clip01 x ∧ clip01 x ≤ 1 :=
  ⟨le_max_left 0 _, max_le (by norm_num) (min_le_left 1 x)⟩

/-- A quotient of naturals with numerator at most the denominator lies in the
unit interval (with the junk value `0` at denominator zero). -/
theorem natDiv_bounds (a b : ℕ) (h : a ≤ b) :
    0 ≤ (a : ℚ) / (b : ℚ) ∧ (a : ℚ) / (b : ℚ) ≤ 1 := by
  rcases Nat.eq_zero_or_pos b with hb | hb
  · subst hb
    have ha : a = 0 := Nat.le_zero.mp h
    subst ha
    norm_num
  · have hbq : (0 : ℚ) < (b : ℚ) := by exact_mod_cast hb
    constructor
    · exact div_nonneg (by positivity) (le_of_lt hbq)
    · rw [div_le_one hbq]
      exact_mod_cast h

/-- Cluster members are catalog recipes. -/
theorem mem_catalog_of_mem_membersOf (fc : FittedClusterer) (c : Nat)
    (r : Recipe) (h : r ∈ membersOf fc c) : r ∈ fc.catalog := by
  unfold membersOf at h
  obtain ⟨p, hp, hpr⟩ := List.mem_map.mp h
  have hz : p ∈ fc.catalog.zip fc.clusterIds := (List.mem_filter.mp hp).1
  have hmem := List.of_mem_zip (a := p.1) (b := p.2) (by simpa using hz)
  rw [← hpr]
  exact hmem.1

/-- The cluster popularity score lies in the unit interval when all catalog
ratings lie in `[0, 5]`. -/
theorem popularityOf_bounds (fc : FittedClusterer) (c : Nat)
    (hcat : ∀ r ∈ fc.catalog, 0 ≤ r.rating ∧ r.rating ≤ 5) :
    0 ≤ popularityOf fc c ∧ popularityOf fc c ≤ 1 := by
  unfold popularityOf
  by_cases hempty : (membersOf fc c).isEmpty
  · simp [hempty]
  · simp only [hempty, Bool.false_eq_true, if_false]
    have hne : membersOf fc c ≠ [] := fun hnil => hempty (by simp [hnil])
    have hlenpos : (0 : ℚ) < ((membersOf fc c).length : ℚ) := by
      exact_mod_cast List.length_pos.mpr hne
    have hmem : ∀ x ∈ (membersOf fc c).map (fun r => r.rating),
        0 ≤ x ∧ x ≤ 5 := by
      intro x hx
      obtain ⟨r, hr, hxr⟩ := List.mem_map.mp hx
      rw [← hxr]
      exact hcat r (mem_catalog_of_mem_membersOf fc c r hr)
    have hsum0 : 0 ≤ ((membersOf fc c).map (fun r => r.rating)).sum :=
      List.sum_nonneg (fun x hx => (hmem x hx).1)
    have hsum5 : ((membersOf fc c).map (fun r => r.rating)).sum ≤
        (((membersOf fc c).map (fun r => r.rating)).length : ℚ) * 5 := by
      have := List.sum_le_card_nsmul ((membersOf fc c).map (fun r => r.rating))
        5 (fun x hx => (hmem x hx).2)
      rwa [nsmul_eq_mul] at this
    rw [List.length_map] at hsum5
    constructor
    · exact div_nonneg (div_nonneg hsum0 (le_of_lt hlenpos)) (by norm_num)
    · rw [div_le_one (by norm_num : (0 : ℚ) < 5), div_le_iff₀ hlenpos]
      linarith

/-- The base score is a convex-type combination: with all four factors in the
unit interval it lies in `[0, 1]`. -/
theorem baseScoreFrom_bounds (a b c d : ℚ) (ha : 0 ≤ a ∧ a ≤ 1)
    (hb : 0 ≤ b ∧ b ≤ 1) (hc : 0 ≤ c ∧ c ≤ 1) (hd : 0 ≤ d ∧ d ≤ 1) :
    0 ≤ baseScoreFrom a b c d ∧ baseScoreFrom a b c d ≤ 1 := by
  unfold baseScoreFrom
  obtain ⟨ha0, ha1⟩ := ha
  obtain ⟨hb0, hb1⟩ := hb
  obtain ⟨hc0, hc1⟩ := hc
  obtain ⟨hd0, hd1⟩ := hd
  norm_num
  constructor <;> nlinarith

/-- The cluster boost lies in `[0, 0.4]` when both terms lie in the unit
interval. -/
theorem clusterBoostFrom_bounds (d p : ℚ) (hd : 0 ≤ d ∧ d ≤ 1)
    (hp : 0 ≤ p ∧ p ≤ 1) :
    0 ≤ clusterBoostFrom d p ∧ clusterBoostFrom d p ≤ 0.4 := by
  unfold clusterBoostFrom
  obtain ⟨hd0, hd1⟩ := hd
  obtain ⟨hp0, hp1⟩ := hp
  norm_num
  constructor <;> nlinarith

/-- C1: every returned result's scores satisfy the spec's exact formulas —
base score `0.40·match_ratio + 0.30·missing_penalty + 0.10·time_factor +
0.20·rating_factor` with `rating_factor = rating/5`, cluster boost
`0.2·rating_factor + 0.2·popularity`, final score
`0.6·base + 0.4·boost` — with the base score in `[0,1]` and the cluster
boost in `[0,0.4]` (ratings assumed in `[0,5]` as the data model states). -/
theorem scores_formula_and_bounds (fc : FittedClusterer) (user : Finset String)
    (maxMissing topN : Nat)
    (hcat : ∀ r ∈ fc.catalog, 0 ≤ r.rating ∧ r.rating ≤ 5)
    (res : MatchResult)
    (hres : res ∈ find_matching_recipes fc user maxMissing topN) :
    res.base_score =
        0.40 * ((res.num_matching : ℚ) /
            ((res.num_matching : ℚ) + (res.num_missing : ℚ))) +
          0.30 * missingPenalty res.num_missing maxMissing +
          0.10 * timeFactor res.cooking_time + 0.20 * (res.rating / 5) ∧
      res.cluster_boost =
        0.2 * (res.rating / 5) + 0.2 * popularityOf fc res.cluster_id ∧
      res.final_score = 0.6 * res.base_score + 0.4 * res.cluster_boost ∧
      0 ≤ res.base_score ∧ res.base_score ≤ 1 ∧
      0 ≤ res.cluster_boost ∧ res.cluster_boost ≤ 0.4 := by
  obtain ⟨i, r, c, hzip, hmiss, heq⟩ :=
    (mem_feasibleResults_iff fc user maxMissing res).mp
      (mem_feasible_of_mem_find fc user maxMissing topN res hres)
  rw [List.getElem?_zip_eq_some] at hzip
  have hrmem : r ∈ fc.catalog := List.getElem?_mem hzip.1
  obtain ⟨hr0, hr5⟩ := hcat r hrmem
  subst heq
  have hcard : (matchingSet r user).card + (missingSet r user).card =
      (requiredSet r).card :=
    Finset.card_inter_add_card_sdiff (requiredSet r) user
  have hden : ((matchingSet r user).card : ℚ) +
      ((missingSet r user).card : ℚ) = ((requiredSet r).card : ℚ) := by
    exact_mod_cast congrArg (fun n : ℕ => (n : ℚ)) hcard
  have hratingF : 0 ≤ r.rating / 5 ∧ r.rating / 5 ≤ 1 := by
    constructor
    · positivity
    · rw [div_le_one (by norm_num : (0 : ℚ) < 5)]
      exact hr5
  have hfrac : 0 ≤ ((matchingSet r user).card : ℚ) /
        ((requiredSet r).card : ℚ) ∧
      ((matchingSet r user).card : ℚ) / ((requiredSet r).card : ℚ) ≤ 1 :=
    natDiv_bounds _ _ (Finset.card_le_card Finset.inter_subset_left)
  have hpen : 0 ≤ missingPenalty (missingSet r user).card maxMissing ∧
      missingPenalty (missingSet r user).card maxMissing ≤ 1 := by
    unfold missingPenalty
    exact clip01_bounds _
  have htime : 0 ≤ timeFactor r.cooking_time ∧
      timeFactor r.cooking_time ≤ 1 := by
    unfold timeFactor
    exact clip01_bounds _
  have hbase := baseScoreFrom_bounds _ _ _ _ hfrac hpen htime hratingF
  have hboost := clusterBoostFrom_bounds (r.rating / 5) (popularityOf fc c)
    hratingF (popularityOf_bounds fc c hcat)
  refine ⟨?_, ?_, ?_, ?_, ?_, ?_, ?_⟩
  · simp only [scoreRecipe, hden]
    rfl
  · simp only [scoreRecipe]
    rfl
  · simp only [scoreRecipe]
    rfl
  · simpa only [scoreRecipe] using hbase.1
  · simpa only [scoreRecipe] using hbase.2
  · simpa only [scoreRecipe] using hboost.1
  · simpa only [scoreRecipe] using hboost.2

theorem scores_formula_and_bounds_w :
    demoResA ∈ find_matching_recipes demoFC demoUser 2 5 ∧
      0 ≤ demoResA.base_score ∧ demoResA.base_score ≤ 1 ∧
      0 ≤ demoResA.cluster_boost ∧ demoResA.cluster_boost ≤ 0.4 := by
  have h := scores_formula_and_bounds demoFC demoUser 2 5 (by decide)
    demoResA demoResA_mem
  exact ⟨demoResA_mem, h.2.2.2.1, h.2.2.2.2.1, h.2.2.2.2.2.1, h.2.2.2.2.2.2⟩

/-- The ranking order coincides with the lexicographic order on sort keys. -/
theorem rankBefore_iff_key (a b : MatchResult) :
    rankBefore a b ↔ rankKey a ≤ rankKey b := by
  unfold rankBefore rankKey
  rw [Prod.Lex.le_iff, Prod.Lex.le_iff, Prod.Lex.le_iff]
  simp only [neg_lt_neg_iff, neg_inj]

instance : IsTotal MatchResult rankBefore :=
  ⟨fun a b => by
    rcases le_total (rankKey a) (rankKey b) with h | h
    · exact Or.inl ((rankBefore_iff_key a b).mpr h)
    · exact Or.inr ((rankBefore_iff_key b a).mpr h)⟩

instance : IsTrans MatchResult rankBefore :=
  ⟨fun a b c hab hbc =>
    (rankBefore_iff_key a c).mpr
      (le_trans ((rankBefore_iff_key a b).mp hab)
        ((rankBefore_iff_key b c).mp hbc))⟩

/-- Candidate results carry strictly increasing catalog positions. -/
theorem feasibleResults_pairwise_idx (fc : FittedClusterer)
    (user : Finset String) (maxMissing : Nat) :
    (feasibleResults fc user maxMissing).Pairwise
      (fun a b => a.idx < b.idx) := by
  unfold feasibleResults
  rw [List.pairwise_map]
  have henum : (fc.catalog.zip fc.clusterIds).enum.Pairwise
      (fun p q => p.1 < q.1) := by
    have h := List.pairwise_lt_range (fc.catalog.zip fc.clusterIds).length
    rw [← List.enum_map_fst, List.pairwise_map] at h
    exact h
  exact (List.Pairwise.filter _ henum).imp
    (fun h => by simpa [scoreRecipe] using h)

/-- C3: the output is sorted by final score descending with ties broken by
higher rating, then lower cooking time, then catalog insertion order
(all captured by `rankBefore` together with distinct catalog positions), is
truncated to `top_n` elements, and when `top_n` is at least the number of
feasible recipes it is the full feasible list (a permutation of it, not
padded). -/
theorem ranking_order_spec (fc : FittedClusterer) (user : Finset String)
    (maxMissing topN : Nat) :
    (find_matching_recipes fc user maxMissing topN).Pairwise
        (fun a b => rankBefore a b ∧ a.idx ≠ b.idx) ∧
      (find_matching_recipes fc user maxMissing topN).length =
        min topN (feasibleResults fc user maxMissing).length ∧
      ((feasibleResults fc user maxMissing).length ≤ topN →
        (find_matching_recipes fc user maxMissing topN).Perm
          (feasibleResults fc user maxMissing)) := by
  unfold find_matching_recipes
  refine ⟨?_, ?_, ?_⟩
  · have hsorted : ((feasibleResults fc user maxMissing).insertionSort
        rankBefore).Pairwise rankBefore :=
      List.sorted_insertionSort rankBefore (feasibleResults fc user maxMissing)
    have hne : ((feasibleResults fc user maxMissing).insertionSort
        rankBefore).Pairwise (fun a b => a.idx ≠ b.idx) := by
      have hperm := List.perm_insertionSort rankBefore
        (feasibleResults fc user maxMissing)
      have hidx := (feasibleResults_pairwise_idx fc user maxMissing).imp
        (fun h => Nat.ne_of_lt h)
      exact (hperm.pairwise_iff (fun h => h.symm)).mpr hidx
    exact List.Pairwise.sublist
      (List.take_sublist topN
        ((feasibleResults fc user maxMissing).insertionSort rankBefore))
      (hsorted.and hne)
  · rw [List.length_take, (List.perm_insertionSort rankBefore
      (feasibleResults fc user maxMissing)).length_eq]
  · intro hle
    rw [List.take_of_length_le (by
      rw [(List.perm_insertionSort rankBefore
        (feasibleResults fc user maxMissing)).length_eq]
      exact hle)]
    exact List.perm_insertionSort rankBefore
      (feasibleResults fc user maxMissing)

theorem ranking_order_spec_w :
    (feasibleResults demoFC demoUser 2).length ≤ 5 ∧
      (find_matching_recipes demoFC demoUser 2 5).Perm
        (feasibleResults demoFC demoUser 2) :=
  ⟨by decide, (ranking_order_spec demoFC demoUser 2 5).2.2 (by decide)⟩

end Cookable
